import Mathlib

/-!
Shallow embedding of the news-parser core
(src/core/base_parser.py, src/core/lenta_parser.py, src/core/ria_parser.py).

Strings are lists of characters.  Timestamps are integers counting seconds,
and the isoformat round-trip (isoformat / fromisoformat) is the identity on
timestamps.  External effects — the HTTP fetch of a feed or a page and the
HTML parse — enter as oracle parameters, so that a statement quantified over
all oracles expresses that the code never performs the corresponding fetch.
-/

set_option autoImplicit false

namespace NewsParser

/-- Python str.split with a one-character separator: the result always has
at least one piece, and an empty input yields one empty piece. -/
def splitOnChar (c : Char) : List Char → List (List Char)
  | [] => [[]]
  | x :: xs =>
    if x = c then [] :: splitOnChar c xs
    else
      match splitOnChar c xs with
      | [] => [[x]]
      | y :: ys => (x :: y) :: ys

/-- Python url.split(c)[0]: the piece before the first occurrence of c. -/
def takeUntilChar (c : Char) (l : List Char) : List Char :=
  l.takeWhile (fun x => x ≠ c)

/-- Python str.rstrip for a single character. -/
def rstripChar (c : Char) (l : List Char) : List Char :=
  (l.reverse.dropWhile (fun x => x = c)).reverse

/-- Common ASCII whitespace, the characters str.strip removes here. -/
def isWs (c : Char) : Bool :=
  c == ' ' || c == '\t' || c == '\n' || c == '\r'

/-- Python str.strip restricted to ASCII whitespace. -/
def stripWs (l : List Char) : List Char :=
  ((l.dropWhile isWs).reverse.dropWhile isWs).reverse

/-- Python substring membership: pat in haystack. -/
def containsSub (pat : List Char) : List Char → Bool
  | [] => pat.isEmpty
  | c :: rest => pat.isPrefixOf (c :: rest) || containsSub pat rest

/-- The remainder after the first occurrence of pat, when pat occurs. -/
def afterSub (pat : List Char) : List Char → Option (List Char)
  | [] => if pat.isEmpty then some [] else none
  | c :: rest =>
    if pat.isPrefixOf (c :: rest) then some ((c :: rest).drop pat.length)
    else afterSub pat rest

/-- Model of Python urlparse(url).path for http-style URLs: the fragment
(from the first '#') is cut first; when "://" occurs, the authority — up
to the first '/' — is skipped and the path runs to the first '?';
otherwise the whole fragment-free, query-free string is the path. -/
def urlparsePath (url : List Char) : List Char :=
  let noFrag := takeUntilChar '#' url
  match afterSub ("://".toList) noFrag with
  | some rest => (takeUntilChar '?' rest).dropWhile (fun x => x ≠ '/')
  | none => takeUntilChar '?' noFrag

/-! ### RiaParser._extract_news_id (src/core/ria_parser.py lines 48-75)

Each regular expression of the source's pattern list is translated into a
direct matcher.  All patterns are applied to the cleaned URL, which has no
trailing slash, so the optional trailing slash of patterns 2 and 4 can
match only the empty string there. -/

/-- Regex c(\d+)$ for a one-character separator c: succeeds when the
maximal trailing digit run is non-empty and the character right before it
is c, capturing the run.  On a string with no trailing slash this is also
c(\d+)/?$. -/
def matchSepDigitsEnd (c : Char) (s : List Char) : Option (List Char) :=
  let r := s.reverse
  let run := r.takeWhile Char.isDigit
  if run.isEmpty then none
  else if (r.dropWhile Char.isDigit).head? = some c then some run.reverse
  else none

/-- Strips the literal suffix suf when present. -/
def stripSuffixLit (suf l : List Char) : Option (List Char) :=
  if suf.reverse.isPrefixOf l.reverse then some ((l.reverse.drop suf.length).reverse)
  else none

/-- Regex c(\d+)\.html$ : strip the ".html" suffix, then match c(\d+)$. -/
def matchSepDigitsHtml (c : Char) (s : List Char) : Option (List Char) :=
  match stripSuffixLit (".html".toList) s with
  | some s2 => matchSepDigitsEnd c s2
  | none => none

/-- Left-to-right scan for regex (\d{8,}): run holds the digit run read so
far, reversed; at a non-digit or at the end the run is complete, and the
first complete run of length at least 8 is captured whole. -/
def firstLongAux (run : List Char) : List Char → Option (List Char)
  | [] => if 8 ≤ run.length then some run.reverse else none
  | c :: rest =>
    if c.isDigit then firstLongAux (c :: run) rest
    else if 8 ≤ run.length then some run.reverse
    else firstLongAux [] rest

/-- Regex (\d{8,}) under re.search: the leftmost maximal digit run of
length at least 8, captured greedily to the end of the run. -/
def firstLongDigitRun (l : List Char) : Option (List Char) :=
  firstLongAux [] l

/-- The for-loop over the pattern list: the first matching rule wins. -/
def firstMatch : List (List Char → Option (List Char)) → List Char → Option (List Char)
  | [], _ => none
  | r :: rs, u =>
    match r u with
    | some m => some m
    | none => firstMatch rs u

/-- The seven RIA URL patterns, in source order (ria_parser.py 55-63).
Pattern 5 coincides with pattern 4 on the slash-free-tail cleaned URL and
is kept to mirror the source list. -/
def riaPatterns : List (List Char → Option (List Char)) :=
  [ matchSepDigitsHtml '-',   -- 1  -(\d+)\.html$
    matchSepDigitsEnd '-',    -- 2  -(\d+)/?$
    matchSepDigitsHtml '/',   -- 3  /(\d+)\.html$
    matchSepDigitsEnd '/',    -- 4  /(\d+)/?$
    matchSepDigitsEnd '/',    -- 5  /(\d+)$
    matchSepDigitsHtml '_',   -- 6  _(\d+)\.html$
    firstLongDigitRun ]       -- 7  (\d{8,})

/-- The clean-up line of RiaParser._extract_news_id: drop the query, the
fragment, and trailing slashes. -/
def riaCleanUrl (url : List Char) : List Char :=
  rstripChar '/' (takeUntilChar '#' (takeUntilChar '?' url))

/-- RiaParser._extract_news_id: clean the URL, then try the patterns in
order; none when no rule matches.  The enclosing try/except cannot fire in
this pure model, so the error branch (also none) is not represented
separately. -/
def riaExtractNewsId (url : List Char) : Option (List Char) :=
  firstMatch riaPatterns (riaCleanUrl url)

/-! ### LentaParser._extract_news_id (src/core/lenta_parser.py lines 31-50) -/

/-- The body of LentaParser._extract_news_id once the path is computed:
parts[-2] when the path ends with '/', else parts[-1]; the original URL is
returned only when the index is out of range (the except branch). -/
def lentaIdFromPath (url path : List Char) : List Char :=
  let parts := splitOnChar '/' path
  if path.getLast? = some '/' then
    match parts.reverse[1]? with
    | some s => s
    | none => url
  else
    match parts.reverse[0]? with
    | some s => s
    | none => url

/-- LentaParser._extract_news_id. -/
def lentaExtractNewsId (url : List Char) : List Char :=
  lentaIdFromPath url (urlparsePath url)

/-! ### Data model (src/core/base_parser.py lines 72-86 and the per-source
updates).  BaseParser._get_news_template returns a dict with every
canonical key set to an empty default; the per-source _parse_rss_item
updates it with literal keys, which a structure update mirrors exactly.
The template's empty pub_date string is modeled as none; a written
timestamp is some t.  description is the extra key only RiaParser adds. -/

structure NewsRecord where
  source : List Char := []
  id : List Char := []
  title : List Char := []
  url : List Char := []
  pub_date : Option Int := none
  categories : List (List Char) := []
  raw_content : List Char := []
  description : List Char := []
deriving Repr, DecidableEq

/-- One feedparser entry as RiaParser reads it: an absent attribute
(hasattr false, or an AttributeError on access) is none.
published_parsed carries the entry timestamp in seconds. -/
structure RiaEntry where
  link : Option (List Char) := none
  title : Option (List Char) := none
  published_parsed : Option Int := none
  description : Option (List Char) := none
deriving Repr, DecidableEq

/-- One BeautifulSoup item as LentaParser reads it: pubDate is none when
the tag is missing or its text fails the RSS date format (either way the
except branch fires); link and title are none when the tag is missing. -/
structure LentaItem where
  pubDate : Option Int := none
  link : Option (List Char) := none
  title : Option (List Char) := none
deriving Repr, DecidableEq

/-- One rss_channels entry: channel_cfg.get('max_news', default) reads the
optional per-channel cap. -/
structure ChannelConfig where
  url : List Char := []
  category : List Char := []
  max_news : Option Nat := none
deriving Repr, DecidableEq

/-- The parts of the merged source config the core logic reads:
source_config['system']['lookback_hours'] and
source_config['defaults']['max_news']. -/
structure SourceConfig where
  lookback_hours : Int := 0
  default_max_news : Nat := 0
deriving Repr, DecidableEq

/-- datetime.now(tz) - timedelta(hours=lookback_hours), in seconds. -/
def timeThreshold (cfg : SourceConfig) (now : Int) : Int :=
  now - cfg.lookback_hours * 3600

/-- The per-channel entry cap: channel max_news or the source default. -/
def channelCap (cfg : SourceConfig) (ch : ChannelConfig) : Nat :=
  ch.max_news.getD cfg.default_max_news

def riaSourceName : List Char := "ria.ru".toList

def lentaSourceName : List Char := "lenta.ru".toList

/-! ### RiaParser normalalization and pipeline (ria_parser.py 118-183) -/

/-- RiaParser._parse_rss_item.  fullText stands for
self._extract_full_text; now for datetime.now.  A missing link or title
fails the explicit hasattr check; a missing published_parsed raises inside
the date handling and the except branch returns None.  Only an entry at
or after the freshness threshold has raw_content filled. -/
def riaParseRssItem (cfg : SourceConfig) (now : Int)
    (fullText : List Char → List Char)
    (ch : ChannelConfig) (entry : RiaEntry) : Option NewsRecord :=
  match entry.link, entry.title with
  | some link, some title =>
    match entry.published_parsed with
    | some t =>
      let base : NewsRecord :=
        { source := riaSourceName
          id := (riaExtractNewsId link).getD link
          title := title
          url := link
          pub_date := some t
          categories := [ch.category]
          raw_content := []
          description := entry.description.getD [] }
      if timeThreshold cfg now ≤ t then
        some { base with raw_content := fullText link }
      else some base
    | none => none
  | _, _ => none

/-- One RIA channel feed as fetch_news sees it: the bozo flag and the
entry list of feedparser.parse. -/
structure RiaFeed where
  bozo : Bool := false
  entries : List RiaEntry := []
deriving Repr, DecidableEq

/-- The per-channel body of RiaParser.fetch_news: none models an exception
caught by the channel-level except (channel skipped); a bozo feed is also
skipped; otherwise the first max_news entries are normalized and the
successes kept. -/
def riaProcessChannel (cfg : SourceConfig) (now : Int)
    (fullText : List Char → List Char)
    (ch : ChannelConfig) (feed : Option RiaFeed) : List NewsRecord :=
  match feed with
  | none => []
  | some f =>
    if f.bozo then []
    else (f.entries.take (channelCap cfg ch)).filterMap
      (riaParseRssItem cfg now fullText ch)

/-- RiaParser.fetch_news: the configured channels in order, each paired
with its feed result; news_items accumulates across channels. -/
def riaFetchNews (cfg : SourceConfig) (now : Int)
    (fullText : List Char → List Char)
    (channels : List (ChannelConfig × Option RiaFeed)) : List NewsRecord :=
  channels.foldl (fun acc c => acc ++ riaProcessChannel cfg now fullText c.1 c.2) []

/-! ### LentaParser normalization and pipeline (lenta_parser.py 52-149) -/

/-- LentaParser._parse_rss_item: a missing piece raises and the except
branch returns None, in source evaluation order (pubDate first, then
link, then the update dict reads title).  raw_content keeps the template
default; fetch_news fills it later for fresh records only. -/
def lentaParseRssItem (ch : ChannelConfig) (item : LentaItem) : Option NewsRecord :=
  match item.pubDate with
  | none => none
  | some t =>
    match item.link with
    | none => none
    | some link0 =>
      let url := stripWs link0
      match item.title with
      | none => none
      | some title0 =>
        some { source := lentaSourceName
               id := lentaExtractNewsId url
               title := stripWs title0
               url := url
               pub_date := some t
               categories := [ch.category]
               raw_content := [] }

/-- The per-channel body of LentaParser.fetch_news: none models a request
or parse exception (channel logged and skipped).  Parsed records are kept
only when fresh — fromisoformat(pub_date) at or after the threshold — and
exactly the kept records get raw_content filled. -/
def lentaProcessChannel (cfg : SourceConfig) (now : Int)
    (fullText : List Char → List Char)
    (ch : ChannelConfig) (items : Option (List LentaItem)) : List NewsRecord :=
  match items with
  | none => []
  | some l =>
    (l.take (channelCap cfg ch)).filterMap (fun it =>
      match lentaParseRssItem ch it with
      | none => none
      | some r =>
        match r.pub_date with
        | some t =>
          if timeThreshold cfg now ≤ t then
            some { r with raw_content := fullText r.url }
          else none
        | none => none)

/-- LentaParser.fetch_news.  The outer try/except (critical, return [])
cannot fire in this pure model. -/
def lentaFetchNews (cfg : SourceConfig) (now : Int)
    (fullText : List Char → List Char)
    (channels : List (ChannelConfig × Option (List LentaItem))) : List NewsRecord :=
  channels.foldl (fun acc c => acc ++ lentaProcessChannel cfg now fullText c.1 c.2) []

/-- LentaParser.run: zero records raise RuntimeError; otherwise the batch
is saved (modeled as returning the list itself). -/
def lentaRun (cfg : SourceConfig) (now : Int)
    (fullText : List Char → List Char)
    (channels : List (ChannelConfig × Option (List LentaItem))) :
    Except (List Char) (List NewsRecord) :=
  let news := lentaFetchNews cfg now fullText channels
  if news.isEmpty then Except.error ("Новости не получены".toList)
  else Except.ok news

/-! ### Full-text resolution (ria_parser.py 77-116, lenta_parser.py 80-105) -/

/-- A structured-API response, abstracted to the one field the code reads,
data.get('text').  An absent or empty text field is falsy in Python, and
an empty response dict is equally falsy with an absent text field, so both
collapse to the same outcome. -/
structure ApiResponse where
  text : Option (List Char) := none
deriving Repr, DecidableEq

def riaApiBase : List Char := "https://ria.ru/api/".toList

/-- Python ' '.join. -/
def joinSpace : List (List Char) → List Char
  | [] => []
  | [p] => p
  | p :: q :: rest => p ++ ' ' :: joinSpace (q :: rest)

/-- RiaParser._extract_full_text_fallback.  fetchPage is the HTML fetch
plus parse: none for a raised request error, some none when neither
article body container is found, some (some ps) for the paragraph texts
of the container after the non-content children are removed.  Empty
stripped paragraphs are dropped before joining, as in the source
generator expression. -/
def riaExtractFullTextFallback
    (fetchPage : List Char → Option (Option (List (List Char))))
    (url : List Char) : List Char :=
  match fetchPage url with
  | none => []
  | some none => []
  | some (some ps) =>
    joinSpace (ps.filterMap (fun p =>
      let s := stripWs p
      if s.isEmpty then none else some s))

/-- RiaParser._extract_full_text: filter out non-article URLs, then the
structured attempt through the API, then the HTML fallback.  api stands
for _make_api_request (none on request or JSON-decode failure). -/
def riaExtractFullText
    (api : List Char → Option ApiResponse)
    (fetchPage : List Char → Option (Option (List (List Char))))
    (url : List Char) : List Char :=
  if containsSub ("/video/".toList) url ||
     containsSub ("/gallery/".toList) url ||
     containsSub ("/infographics/".toList) url then []
  else
    let structured : Option (List Char) :=
      match riaExtractNewsId url with
      | some articleId =>
        match api (riaApiBase ++ articleId ++ ".json".toList) with
        | some data =>
          match data.text with
          | some t => if t.isEmpty then none else some t
          | none => none
        | none => none
      | none => none
    match structured with
    | some t => t
    | none => riaExtractFullTextFallback fetchPage url

/-- LentaParser._is_news_url. -/
def lentaIsNewsUrl (url : List Char) : Bool :=
  containsSub ("lenta.ru/news".toList) url &&
    !(containsSub ("/video/".toList) url || containsSub ("/photo/".toList) url)

/-- LentaParser._extract_full_text: a non-article URL gives the empty
string before any fetch; fetchPage covers the request, status check and
parse (none: raised error; some none: no topic-body content div;
some (some ps): the paragraph texts).  Lenta joins every stripped
paragraph, empty or not. -/
def lentaExtractFullText
    (fetchPage : List Char → Option (Option (List (List Char))))
    (url : List Char) : List Char :=
  if !(lentaIsNewsUrl url) then []
  else
    match fetchPage url with
    | none => []
    | some none => []
    | some (some ps) => joinSpace (ps.map stripWs)

/-! ### Helper lemmas -/

theorem takeWhile_eq_self_of_all (p : Char → Bool) (l : List Char)
    (h : ∀ x ∈ l, p x = true) : l.takeWhile p = l := by
  induction l with
  | nil => rfl
  | cons c rest ih =>
    rw [List.takeWhile_cons_of_pos (h c (List.mem_cons_self c rest))]
    exact congrArg (c :: ·) (ih fun x hx => h x (List.mem_cons_of_mem c hx))

theorem takeWhile_append_stop (p : Char → Bool) (a b : List Char)
    (h : a.dropWhile p ≠ []) : (a ++ b).takeWhile p = a.takeWhile p := by
  induction a with
  | nil => exact absurd rfl h
  | cons c rest ih =>
    by_cases hc : p c = true
    · rw [List.dropWhile_cons_of_pos hc] at h
      rw [List.cons_append, List.takeWhile_cons_of_pos hc,
        List.takeWhile_cons_of_pos hc, ih h]
    · rw [List.cons_append, List.takeWhile_cons_of_neg (by simpa using hc),
        List.takeWhile_cons_of_neg (by simpa using hc)]

theorem dropWhile_append_stop (p : Char → Bool) (a b : List Char)
    (h : a.dropWhile p ≠ []) : (a ++ b).dropWhile p = a.dropWhile p ++ b := by
  induction a with
  | nil => exact absurd rfl h
  | cons c rest ih =>
    by_cases hc : p c = true
    · rw [List.dropWhile_cons_of_pos hc] at h
      rw [List.cons_append, List.dropWhile_cons_of_pos hc,
        List.dropWhile_cons_of_pos hc, ih h]
    · rw [List.cons_append, List.dropWhile_cons_of_neg (by simpa using hc),
        List.dropWhile_cons_of_neg (by simpa using hc), List.cons_append]

theorem dropWhile_append_all (p : Char → Bool) (a b : List Char)
    (h : ∀ x ∈ a, p x = true) : (a ++ b).dropWhile p = b.dropWhile p := by
  induction a with
  | nil => rfl
  | cons c rest ih =>
    rw [List.cons_append, List.dropWhile_cons_of_pos (h c (List.mem_cons_self c rest))]
    exact ih fun x hx => h x (List.mem_cons_of_mem c hx)

theorem isPrefixOf_append_self (a b : List Char) : a.isPrefixOf (a ++ b) = true := by
  induction a with
  | nil => simp [List.isPrefixOf]
  | cons c rest ih => simp [List.isPrefixOf, ih]

theorem foldl_append_eq_join {α β : Type} (f : α → List β) (l : List α) :
    ∀ acc : List β, l.foldl (fun a c => a ++ f c) acc = acc ++ (l.map f).flatten := by
  induction l with
  | nil => intro acc; simp
  | cons c rest ih => intro acc; simp [List.foldl_cons, ih, List.append_assoc]

/-- Any id produced by the end-anchored separator patterns is non-empty. -/
theorem matchSepDigitsEnd_ne_nil (c : Char) (s m : List Char)
    (h : matchSepDigitsEnd c s = some m) : m ≠ [] := by
  unfold matchSepDigitsEnd at h
  by_cases he : (s.reverse.takeWhile Char.isDigit).isEmpty = true
  · simp [he] at h
  · simp only [he, if_false, Bool.false_eq_true] at h
    split at h
    · cases h
      intro hm
      rw [List.reverse_eq_nil_iff] at hm
      simp [hm] at he
    · cases h

theorem matchSepDigitsHtml_ne_nil (c : Char) (s m : List Char)
    (h : matchSepDigitsHtml c s = some m) : m ≠ [] := by
  unfold matchSepDigitsHtml at h
  split at h
  · exact matchSepDigitsEnd_ne_nil c _ m h
  · cases h

theorem firstLongAux_ne_nil (l : List Char) :
    ∀ run m, firstLongAux run l = some m → m ≠ [] := by
  induction l with
  | nil =>
    intro run m h
    unfold firstLongAux at h
    split at h
    · next hge =>
      cases h
      intro hm
      rw [List.reverse_eq_nil_iff] at hm
      subst hm
      simp at hge
    · cases h
  | cons c rest ih =>
    intro run m h
    unfold firstLongAux at h
    split at h
    · exact ih _ m h
    · split at h
      · next hge =>
        cases h
        intro hm
        rw [List.reverse_eq_nil_iff] at hm
        subst hm
        simp at hge
      · exact ih _ m h

/-- First-match inversion for the rule loop. -/
theorem firstMatch_mem (rules : List (List Char → Option (List Char))) :
    ∀ u m, firstMatch rules u = some m → ∃ r ∈ rules, r u = some m := by
  induction rules with
  | nil => intro u m h; cases h
  | cons r rs ih =>
    intro u m h
    unfold firstMatch at h
    split at h
    · next heq => exact ⟨r, List.mem_cons_self r rs, by rw [heq]; exact h⟩
    · obtain ⟨r2, hr2, he⟩ := ih u m h
      exact ⟨r2, List.mem_cons_of_mem r hr2, he⟩

/-- Any id RiaParser._extract_news_id matches is non-empty. -/
theorem riaExtractNewsId_some_ne_nil (url m : List Char)
    (h : riaExtractNewsId url = some m) : m ≠ [] := by
  obtain ⟨r, hr, he⟩ := firstMatch_mem riaPatterns (riaCleanUrl url) m h
  simp only [riaPatterns, List.mem_cons, List.not_mem_nil, or_false] at hr
  rcases hr with h1 | h2 | h3 | h4 | h5 | h6 | h7
  · exact matchSepDigitsHtml_ne_nil '-' _ m (h1 ▸ he)
  · exact matchSepDigitsEnd_ne_nil '-' _ m (h2 ▸ he)
  · exact matchSepDigitsHtml_ne_nil '/' _ m (h3 ▸ he)
  · exact matchSepDigitsEnd_ne_nil '/' _ m (h4 ▸ he)
  · exact matchSepDigitsEnd_ne_nil '/' _ m (h5 ▸ he)
  · exact matchSepDigitsHtml_ne_nil '_' _ m (h6 ▸ he)
  · exact firstLongAux_ne_nil _ _ m (h7 ▸ he)

/-- Shape of any record RiaParser._parse_rss_item emits. -/
theorem riaParseRssItem_shape (cfg : SourceConfig) (now : Int)
    (f : List Char → List Char) (ch : ChannelConfig) (e : RiaEntry)
    (r : NewsRecord) (h : riaParseRssItem cfg now f ch e = some r) :
    r.source = riaSourceName ∧ r.pub_date = e.published_parsed ∧
      r.pub_date.isSome = true ∧ r.categories = [ch.category] ∧
      (∀ link, e.link = some link → r.id = (riaExtractNewsId link).getD link) := by
  unfold riaParseRssItem at h
  cases hl : e.link with
  | none => rw [hl] at h; cases h
  | some link =>
    cases ht : e.title with
    | none => rw [hl, ht] at h; cases h
    | some title =>
      cases hp : e.published_parsed with
      | none => rw [hl, ht, hp] at h; cases h
      | some t =>
        rw [hl, ht, hp] at h
        simp only at h
        split at h <;>
          (cases h; exact ⟨rfl, rfl, rfl, rfl, fun l2 hl2 => by cases hl2; rfl⟩)

/-- Shape of any record LentaParser._parse_rss_item emits. -/
theorem lentaParseRssItem_shape (ch : ChannelConfig) (it : LentaItem)
    (r : NewsRecord) (h : lentaParseRssItem ch it = some r) :
    r.source = lentaSourceName ∧ r.pub_date = it.pubDate ∧
      r.pub_date.isSome = true ∧ r.categories = [ch.category] ∧ r.raw_content = [] := by
  unfold lentaParseRssItem at h
  cases hp : it.pubDate with
  | none => rw [hp] at h; cases h
  | some t =>
    cases hl : it.link with
    | none => rw [hp, hl] at h; cases h
    | some link0 =>
      cases ht : it.title with
      | none => rw [hp, hl, ht] at h; cases h
      | some title0 =>
        rw [hp, hl, ht] at h
        simp only at h
        cases h
        exact ⟨rfl, rfl, rfl, rfl, rfl⟩

/-! ### Claim theorems -/

/-- C2 counterexample: the claim that extract_id returns the original URL
unchanged on no match, with a non-empty result for non-empty input, is
false on the code.  RiaParser._extract_news_id returns None — not the
URL — for a URL with no digits, and LentaParser._extract_news_id returns
the empty string — neither the URL nor non-empty — for a non-empty URL
with an empty path. -/
theorem extract_id_claim_counterexample :
    riaExtractNewsId ("https://ria.ru/politics/abc".toList) = none
    ∧ lentaExtractNewsId ("https://lenta.ru".toList) = []
    ∧ ("https://lenta.ru".toList : List Char) ≠ [] := by
  exact ⟨by decide, by decide, by decide⟩

/-- C2 (amended): extract_id never throws (both extractors are total
functions); RIA's extractor returns None, not the URL, when no pattern
matches, any id it does match is non-empty, and the caller substitutes the
original URL when building the record id, so the stored id is non-empty
whenever the entry link is; Lenta's extractor can return an empty segment
for a non-empty URL with an empty path. -/
theorem extract_id_amended (url : List Char) (hurl : url ≠ []) :
    (∀ m, riaExtractNewsId url = some m → m ≠ [])
    ∧ (riaExtractNewsId url).getD url ≠ []
    ∧ (∀ (cfg : SourceConfig) (now : Int) (f : List Char → List Char)
        (ch : ChannelConfig) (e : RiaEntry) (r : NewsRecord) (link : List Char),
        e.link = some link → riaParseRssItem cfg now f ch e = some r →
        r.id = (riaExtractNewsId link).getD link) := by
  refine ⟨fun m hm => riaExtractNewsId_some_ne_nil url m hm, ?_, ?_⟩
  · cases hx : riaExtractNewsId url with
    | none => simpa using hurl
    | some m => simpa using riaExtractNewsId_some_ne_nil url m hx
  · intro cfg now f ch e r link hl h
    exact (riaParseRssItem_shape cfg now f ch e r h).2.2.2.2 link hl

/-- C2 witness. -/
theorem extract_id_amended_witness :
    (riaExtractNewsId ("https://ria.ru/politics/abc".toList)).getD
      ("https://ria.ru/politics/abc".toList) ≠ [] :=
  (extract_id_amended ("https://ria.ru/politics/abc".toList) (by decide)).2.1

/-- C4: resolve_text never throws — both resolvers are total functions
into strings, with every fallible step an Option-valued oracle — and a URL
matching a known non-article pattern gives the empty string for every
fetch oracle, i.e. without performing any fetch: RIA filters video,
gallery and infographics paths; Lenta filters every URL its
_is_news_url rejects (non-news, video and photo paths). -/
theorem resolve_text_filter (url lurl : List Char)
    (hria : (containsSub ("/video/".toList) url ||
        containsSub ("/gallery/".toList) url ||
        containsSub ("/infographics/".toList) url) = true)
    (hlenta : lentaIsNewsUrl lurl = false) :
    (∀ (api : List Char → Option ApiResponse)
        (fetchPage : List Char → Option (Option (List (List Char)))),
        riaExtractFullText api fetchPage url = [])
    ∧ (∀ fetchPage : List Char → Option (Option (List (List Char))),
        lentaExtractFullText fetchPage lurl = []) := by
  constructor
  · intro api fetchPage
    simp only [riaExtractFullText]
    rw [if_pos hria]
  · intro fetchPage
    simp [lentaExtractFullText, hlenta]

/-- C4 witness. -/
theorem resolve_text_filter_witness :
    riaExtractFullText (fun _ => none) (fun _ => none)
      ("https://ria.ru/video/20240515/x.html".toList) = []
    ∧ lentaExtractFullText (fun _ => none)
      ("https://lenta.ru/news/2024/photo/x/".toList) = [] := by
  have h := resolve_text_filter ("https://ria.ru/video/20240515/x.html".toList)
    ("https://lenta.ru/news/2024/photo/x/".toList) (by decide) (by decide)
  exact ⟨h.1 _ _, h.2 _⟩

/-- C5: when an article identifier is derivable from a (non-filtered) URL
and the structured API answers with a well-formed response whose text
field is non-empty, resolve_text returns that text for every HTML-fetch
oracle — the HTML fallback is never consulted. -/
theorem resolve_text_structured (url articleId t : List Char)
    (api : List Char → Option ApiResponse)
    (hfilter : (containsSub ("/video/".toList) url ||
        containsSub ("/gallery/".toList) url ||
        containsSub ("/infographics/".toList) url) = false)
    (hid : riaExtractNewsId url = some articleId)
    (hapi : api (riaApiBase ++ articleId ++ ".json".toList) = some { text := some t })
    (ht : t ≠ []) :
    ∀ fetchPage : List Char → Option (Option (List (List Char))),
      riaExtractFullText api fetchPage url = t := by
  intro fetchPage
  cases t with
  | nil => exact absurd rfl ht
  | cons c cs =>
    simp only [riaExtractFullText]
    rw [if_neg (by rw [hfilter]; simp)]
    simp only [hid]
    rw [hapi]
    simp

/-- C5 witness: a structured response of the shape given in the spec,
with {"text": "Hello"}. -/
theorem resolve_text_structured_witness :
    riaExtractFullText
      (fun u => if u = ("https://ria.ru/api/12345678.json".toList)
        then some { text := some ("Hello".toList) } else none)
      (fun _ => none)
      ("https://ria.ru/20240515/abc-12345678.html".toList) = "Hello".toList := by
  exact resolve_text_structured ("https://ria.ru/20240515/abc-12345678.html".toList)
    ("12345678".toList) ("Hello".toList) _ (by decide) (by decide) (by decide) (by decide) _

/-- A RIA entry with a missing mandatory field normalizes to None. -/
theorem riaParseRssItem_none_of_missing (cfg : SourceConfig) (now : Int)
    (f : List Char → List Char) (ch : ChannelConfig) (e : RiaEntry)
    (h : e.link = none ∨ e.title = none) :
    riaParseRssItem cfg now f ch e = none := by
  rcases h with h | h
  · cases ht : e.title <;> simp [riaParseRssItem, h, ht]
  · cases hl : e.link <;> simp [riaParseRssItem, h, hl]

/-- A Lenta item with a missing mandatory field normalizes to None. -/
theorem lentaParseRssItem_none_of_missing (ch : ChannelConfig) (it : LentaItem)
    (h : it.link = none ∨ it.title = none) :
    lentaParseRssItem ch it = none := by
  rcases h with h | h
  · cases hp : it.pubDate <;> simp [lentaParseRssItem, hp, h]
  · cases hp : it.pubDate <;> cases hl : it.link <;> simp [lentaParseRssItem, hp, hl, h]

/-- C6: an entry missing link or title is dropped silently — normalize
returns nothing for both sources, no exception escapes (the model is a
total function into Option) — and a channel whose feed carries one such
entry in place of a normalizable one emits exactly one fewer record. -/
theorem normalize_missing_field (cfg : SourceConfig) (now : Int)
    (f : List Char → List Char) (ch : ChannelConfig) :
    (∀ e : RiaEntry, e.link = none ∨ e.title = none →
        riaParseRssItem cfg now f ch e = none)
    ∧ (∀ it : LentaItem, it.link = none ∨ it.title = none →
        lentaParseRssItem ch it = none)
    ∧ (∀ (l1 l2 : List RiaEntry) (e eGood : RiaEntry) (r : NewsRecord),
        e.link = none ∨ e.title = none →
        riaParseRssItem cfg now f ch eGood = some r →
        l1.length < channelCap cfg ch →
        (riaProcessChannel cfg now f ch
            (some { bozo := false, entries := l1 ++ eGood :: l2 })).length =
          (riaProcessChannel cfg now f ch
            (some { bozo := false, entries := l1 ++ e :: l2 })).length + 1) := by
  refine ⟨riaParseRssItem_none_of_missing cfg now f ch,
    lentaParseRssItem_none_of_missing ch, ?_⟩
  intro l1 l2 e eGood r hbad hgood hlen
  have hbadnone := riaParseRssItem_none_of_missing cfg now f ch e hbad
  obtain ⟨k, hk⟩ : ∃ k, channelCap cfg ch - l1.length = k + 1 :=
    ⟨channelCap cfg ch - l1.length - 1, by omega⟩
  have ht1 : l1.take (channelCap cfg ch) = l1 := List.take_of_length_le (Nat.le_of_lt hlen)
  simp only [riaProcessChannel, Bool.false_eq_true, if_false,
    List.take_append_eq_append_take, ht1, hk, List.take_succ_cons,
    List.filterMap_append, List.filterMap_cons, hgood, hbadnone,
    List.length_append, List.length_cons]
  omega

/-- C6 witness. -/
theorem normalize_missing_field_witness :
    riaParseRssItem { lookback_hours := 0, default_max_news := 10 } 0 (fun _ => [])
      { category := "c".toList } { title := some ("T".toList) } = none := by
  have h := normalize_missing_field { lookback_hours := 0, default_max_news := 10 } 0
    (fun _ => []) { category := "c".toList }
  exact h.1 { title := some ("T".toList) } (Or.inl rfl)

/-- C3: every record the pipelines emit is complete — it is a full
NewsRecord value whose every canonical field is populated from the
template or an update, with pub_date actually written (not the template
placeholder) — and its categories field is exactly the one-element list
holding the processing channel's configured category. -/
theorem emitted_record_invariant (cfg : SourceConfig) (now : Int)
    (f : List Char → List Char)
    (rchannels : List (ChannelConfig × Option RiaFeed))
    (lchannels : List (ChannelConfig × Option (List LentaItem))) :
    (∀ r ∈ riaFetchNews cfg now f rchannels,
        r.source = riaSourceName ∧ r.pub_date.isSome = true ∧
          ∃ c ∈ rchannels, r.categories = [c.1.category])
    ∧ (∀ r ∈ lentaFetchNews cfg now f lchannels,
        r.source = lentaSourceName ∧ r.pub_date.isSome = true ∧
          ∃ c ∈ lchannels, r.categories = [c.1.category]) := by
  constructor
  · intro r hr
    rw [riaFetchNews, foldl_append_eq_join] at hr
    simp only [List.nil_append, List.mem_flatten, List.mem_map] at hr
    obtain ⟨lrec, ⟨c, hc, rfl⟩, hrmem⟩ := hr
    obtain ⟨ch, feed⟩ := c
    cases feed with
    | none => simp [riaProcessChannel] at hrmem
    | some fd =>
      by_cases hb : fd.bozo = true
      · simp [riaProcessChannel, hb] at hrmem
      · simp only [riaProcessChannel, hb, Bool.false_eq_true, if_false] at hrmem
        rw [List.mem_filterMap] at hrmem
        obtain ⟨e, _, hpe⟩ := hrmem
        have hs := riaParseRssItem_shape cfg now f ch e r hpe
        exact ⟨hs.1, hs.2.2.1, ⟨(ch, some fd), hc, hs.2.2.2.1⟩⟩
  · intro r hr
    rw [lentaFetchNews, foldl_append_eq_join] at hr
    simp only [List.nil_append, List.mem_flatten, List.mem_map] at hr
    obtain ⟨lrec, ⟨c, hc, rfl⟩, hrmem⟩ := hr
    obtain ⟨ch, items⟩ := c
    cases items with
    | none => simp [lentaProcessChannel] at hrmem
    | some il =>
      simp only [lentaProcessChannel] at hrmem
      rw [List.mem_filterMap] at hrmem
      obtain ⟨it, _, hpe⟩ := hrmem
      cases hp0 : lentaParseRssItem ch it with
      | none => rw [hp0] at hpe; cases hpe
      | some r0 =>
        rw [hp0] at hpe
        simp only at hpe
        have hs0 := lentaParseRssItem_shape ch it r0 hp0
        cases hpd : r0.pub_date with
        | none => rw [hpd] at hpe; cases hpe
        | some t =>
          rw [hpd] at hpe
          simp only at hpe
          split at hpe
          · cases hpe
            exact ⟨hs0.1, by simp [hpd], ⟨(ch, some il), hc, hs0.2.2.2.1⟩⟩
          · cases hpe

/-- C3 witness. -/
theorem emitted_record_invariant_witness :
    ∀ r ∈ riaFetchNews { lookback_hours := 1, default_max_news := 5 } 0 (fun _ => [])
      [({ category := "cat".toList },
        some { entries := [{ link := some ("u-12345678.html".toList),
                             title := some ("T".toList),
                             published_parsed := some 0 }] })],
      r.source = riaSourceName := by
  intro r hr
  exact ((emitted_record_invariant { lookback_hours := 1, default_max_news := 5 } 0
    (fun _ => []) _ []).1 r hr).1

/-- C7: fetch_news aggregates per-channel results in configuration order;
a failed channel (fetch exception or malformed feed) contributes nothing
and does not disturb the other channels; the empty list is a legitimate
value of fetch_news itself; and the zero-records-as-failure policy lives
in the caller: LentaParser.run raises exactly when fetch_news returned
the empty list and otherwise saves what fetch_news returned. -/
theorem fetch_all_aggregation (cfg : SourceConfig) (now : Int)
    (f : List Char → List Char) :
    (∀ rchannels : List (ChannelConfig × Option RiaFeed),
        riaFetchNews cfg now f rchannels =
          (rchannels.map (fun c => riaProcessChannel cfg now f c.1 c.2)).flatten)
    ∧ (∀ (chs1 chs2 : List (ChannelConfig × Option RiaFeed))
        (bad : ChannelConfig × Option RiaFeed),
        (bad.2 = none ∨ ∃ fd, bad.2 = some fd ∧ fd.bozo = true) →
        riaFetchNews cfg now f (chs1 ++ bad :: chs2) =
          riaFetchNews cfg now f chs1 ++ riaFetchNews cfg now f chs2)
    ∧ riaFetchNews cfg now f [] = []
    ∧ (∀ lchannels : List (ChannelConfig × Option (List LentaItem)),
        lentaFetchNews cfg now f lchannels =
          (lchannels.map (fun c => lentaProcessChannel cfg now f c.1 c.2)).flatten)
    ∧ (∀ lchannels : List (ChannelConfig × Option (List LentaItem)),
        (lentaRun cfg now f lchannels =
            Except.ok (lentaFetchNews cfg now f lchannels) ↔
          lentaFetchNews cfg now f lchannels ≠ [])
        ∧ (lentaRun cfg now f lchannels =
            Except.error ("Новости не получены".toList) ↔
          lentaFetchNews cfg now f lchannels = [])) := by
  have hria : ∀ rchannels : List (ChannelConfig × Option RiaFeed),
      riaFetchNews cfg now f rchannels =
        (rchannels.map (fun c => riaProcessChannel cfg now f c.1 c.2)).flatten := by
    intro rchannels
    rw [riaFetchNews, foldl_append_eq_join, List.nil_append]
  refine ⟨hria, ?_, rfl, ?_, ?_⟩
  · intro chs1 chs2 bad hbad
    have hskip : riaProcessChannel cfg now f bad.1 bad.2 = [] := by
      rcases hbad with h | ⟨fd, hfd, hb⟩
      · simp [riaProcessChannel, h]
      · simp [riaProcessChannel, hfd, hb]
    rw [hria, hria, hria, List.map_append, List.map_cons, List.flatten_append,
      List.flatten_cons, hskip, List.nil_append]
  · intro lchannels
    rw [lentaFetchNews, foldl_append_eq_join, List.nil_append]
  · intro lchannels
    by_cases hemp : lentaFetchNews cfg now f lchannels = []
    · constructor
      · simp [lentaRun, hemp]
      · simp [lentaRun, hemp]
    · constructor
      · simp [lentaRun, hemp]
      · simp [lentaRun, hemp]

/-- C7 witness. -/
theorem fetch_all_aggregation_witness :
    riaFetchNews { lookback_hours := 1, default_max_news := 5 } 0 (fun _ => [])
      [({ category := "a".toList }, none)] =
      riaFetchNews { lookback_hours := 1, default_max_news := 5 } 0 (fun _ => []) [] ++
      riaFetchNews { lookback_hours := 1, default_max_news := 5 } 0 (fun _ => []) [] := by
  exact (fetch_all_aggregation { lookback_hours := 1, default_max_news := 5 } 0
    (fun _ => [])).2.1 [] [] ({ category := "a".toList }, none) (Or.inl rfl)

/-- C1 counterexample: the claim that every stale entry is still emitted
(with metadata, empty raw_content) is false for LentaParser: a channel
whose only item is valid but older than the freshness cutoff yields zero
records from fetch_news — the stale record is dropped, not emitted. -/
theorem stale_entry_claim_counterexample :
    (lentaParseRssItem { category := "news".toList }
        { pubDate := some 0,
          link := some ("https://lenta.ru/news/2024/05/15/coffee/".toList),
          title := some ("T".toList) }).isSome = true
    ∧ lentaFetchNews { lookback_hours := 24, default_max_news := 10 } 1000000
        (fun _ => [])
        [({ category := "news".toList },
          some [{ pubDate := some 0,
                  link := some ("https://lenta.ru/news/2024/05/15/coffee/".toList),
                  title := some ("T".toList) }])] = [] := by
  exact ⟨by decide, by decide⟩

/-- C1 (amended): for RIA the claim holds — a stale entry (pub_date before
now minus lookback_hours) is still emitted with its metadata and empty
raw_content, and the result does not depend on the full-text resolver, so
no resolution is attempted; for Lenta, however, a stale entry is dropped
by fetch_news and produces no record at all. -/
theorem stale_entry_amended (cfg : SourceConfig) (now t : Int)
    (link title : List Char) (desc : Option (List Char)) (ch : ChannelConfig)
    (hstale : t < timeThreshold cfg now) :
    (∀ f g : List Char → List Char,
        riaParseRssItem cfg now f ch
          { link := some link, title := some title,
            published_parsed := some t, description := desc } =
        riaParseRssItem cfg now g ch
          { link := some link, title := some title,
            published_parsed := some t, description := desc })
    ∧ (∀ f : List Char → List Char,
        riaParseRssItem cfg now f ch
          { link := some link, title := some title,
            published_parsed := some t, description := desc } =
        some { source := riaSourceName, id := (riaExtractNewsId link).getD link,
               title := title, url := link, pub_date := some t,
               categories := [ch.category], raw_content := [],
               description := desc.getD [] })
    ∧ (∀ (f : List Char → List Char) (item : LentaItem), item.pubDate = some t →
        lentaProcessChannel cfg now f ch (some [item]) = []) := by
  have h2 : ∀ f : List Char → List Char,
      riaParseRssItem cfg now f ch
        { link := some link, title := some title,
          published_parsed := some t, description := desc } =
      some { source := riaSourceName, id := (riaExtractNewsId link).getD link,
             title := title, url := link, pub_date := some t,
             categories := [ch.category], raw_content := [],
             description := desc.getD [] } := by
    intro f
    simp only [riaParseRssItem]
    rw [if_neg (not_le.mpr hstale)]
  refine ⟨fun f g => by rw [h2 f, h2 g], h2, ?_⟩
  intro f item hpd
  simp only [lentaProcessChannel]
  cases hcap : channelCap cfg ch with
  | zero => simp
  | succ k =>
    rw [List.take_succ_cons, List.take_nil]
    cases hp0 : lentaParseRssItem ch item with
    | none => simp [List.filterMap_cons, hp0]
    | some r0 =>
      have hs0 := lentaParseRssItem_shape ch item r0 hp0
      have hpd0 : r0.pub_date = some t := by rw [hs0.2.1, hpd]
      simp [List.filterMap_cons, hp0, hpd0, if_neg (not_le.mpr hstale)]

/-- C1 witness. -/
theorem stale_entry_amended_witness :
    riaParseRssItem { lookback_hours := 24, default_max_news := 10 } 1000000
      (fun _ => "BODY".toList) { category := "news".toList }
      { link := some ("https://ria.ru/20240515/x-12345678.html".toList),
        title := some ("T".toList), published_parsed := some 0 } =
    some { source := riaSourceName, id := "12345678".toList,
           title := "T".toList,
           url := "https://ria.ru/20240515/x-12345678.html".toList,
           pub_date := some 0, categories := ["news".toList],
           raw_content := [], description := [] } := by
  have h := (stale_entry_amended { lookback_hours := 24, default_max_news := 10 }
    1000000 0 ("https://ria.ru/20240515/x-12345678.html".toList) ("T".toList)
    none { category := "news".toList } (by decide)).2.1 (fun _ => "BODY".toList)
  rw [h]
  have hid : riaExtractNewsId ("https://ria.ru/20240515/x-12345678.html".toList) =
      some ("12345678".toList) := by decide
  rw [hid]
  rfl

/-! ### Lemmas for the URL-pattern claims -/

theorem takeWhile_append_all (p : Char → Bool) (a b : List Char)
    (h : ∀ x ∈ a, p x = true) : (a ++ b).takeWhile p = a ++ b.takeWhile p := by
  induction a with
  | nil => rfl
  | cons c rest ih =>
    rw [List.cons_append, List.takeWhile_cons_of_pos (h c (List.mem_cons_self c rest)),
      ih fun x hx => h x (List.mem_cons_of_mem c hx), List.cons_append]

theorem takeUntilChar_eq_self (c : Char) (l : List Char) (h : c ∉ l) :
    takeUntilChar c l = l := by
  apply takeWhile_eq_self_of_all
  intro x hx
  simp only [decide_eq_true_eq]
  exact fun he => h (he ▸ hx)

theorem rstripChar_eq_self (c : Char) (l : List Char)
    (h : ∀ x, l.getLast? = some x → x ≠ c) : rstripChar c l = l := by
  unfold rstripChar
  cases hr : l.reverse with
  | nil =>
    have hl : l = [] := by simpa using congrArg List.reverse hr
    subst hl
    rfl
  | cons c0 rest =>
    have hc0 : l.getLast? = some c0 := by
      rw [← List.head?_reverse, hr]
      rfl
    rw [List.dropWhile_cons_of_neg (by simpa using h c0 hc0), ← hr,
      List.reverse_reverse]

theorem getLast_append_right (a b : List Char) (hb : b ≠ []) :
    (a ++ b).getLast? = b.getLast? := by
  rw [← List.head?_reverse, ← List.head?_reverse, List.reverse_append]
  cases hbr : b.reverse with
  | nil => exact absurd (by simpa using congrArg List.reverse hbr) hb
  | cons c0 rest => simp

theorem stripSuffixLit_append (suf p : List Char) :
    stripSuffixLit suf (p ++ suf) = some p := by
  unfold stripSuffixLit
  rw [List.reverse_append, if_pos (isPrefixOf_append_self _ _),
    ← List.length_reverse, List.drop_left, List.reverse_reverse]

theorem stripSuffixLit_none_of_head_ne (suf l : List Char) (cs cl : Char)
    (ts tl : List Char) (hs : suf.reverse = cs :: ts) (hl : l.reverse = cl :: tl)
    (hne : (cs == cl) = false) : stripSuffixLit suf l = none := by
  unfold stripSuffixLit
  rw [hs, hl, if_neg (by simp [List.isPrefixOf, hne])]

theorem matchSepDigitsEnd_append (sep : Char) (p digits : List Char)
    (hd : digits ≠ []) (hdig : ∀ x ∈ digits, x.isDigit = true)
    (hsep : sep.isDigit = false) :
    matchSepDigitsEnd sep (p ++ sep :: digits) = some digits := by
  have hrev : (p ++ sep :: digits).reverse = digits.reverse ++ sep :: p.reverse := by
    rw [List.reverse_append, List.reverse_cons, List.append_assoc,
      List.singleton_append]
  have hall : ∀ x ∈ digits.reverse, x.isDigit = true := fun x hx =>
    hdig x (List.mem_reverse.1 hx)
  have htake : (digits.reverse ++ sep :: p.reverse).takeWhile Char.isDigit =
      digits.reverse := by
    rw [takeWhile_append_all _ _ _ hall,
      List.takeWhile_cons_of_neg (by simp [hsep]), List.append_nil]
  have hdrop : (digits.reverse ++ sep :: p.reverse).dropWhile Char.isDigit =
      sep :: p.reverse := by
    rw [dropWhile_append_all _ _ _ hall,
      List.dropWhile_cons_of_neg (by simp [hsep])]
  have hne : digits.reverse.isEmpty = false := by
    cases hdr : digits.reverse with
    | nil => exact absurd (by simpa using congrArg List.reverse hdr) hd
    | cons x t => rfl
  unfold matchSepDigitsEnd
  simp only [hrev, htake, hdrop, hne, Bool.false_eq_true, if_false,
    List.head?_cons, if_pos, List.reverse_reverse]

theorem matchSepDigitsHtml_append (sep : Char) (p digits : List Char)
    (hd : digits ≠ []) (hdig : ∀ x ∈ digits, x.isDigit = true)
    (hsep : sep.isDigit = false) :
    matchSepDigitsHtml sep ((p ++ sep :: digits) ++ ".html".toList) = some digits := by
  unfold matchSepDigitsHtml
  rw [stripSuffixLit_append]
  exact matchSepDigitsEnd_append sep p digits hd hdig hsep

theorem afterSub_cons_of_ne (pat : List Char) (c0 : Char) (t : List Char)
    (c : Char) (rest : List Char) (hpat : pat = c0 :: t)
    (hne : (c0 == c) = false) : afterSub pat (c :: rest) = afterSub pat rest := by
  subst hpat
  conv_lhs => unfold afterSub
  rw [if_neg (by simp [List.isPrefixOf, hne])]

theorem afterSub_self_append (pat X : List Char) (hp : pat ≠ []) :
    afterSub pat (pat ++ X) = some X := by
  cases pat with
  | nil => exact absurd rfl hp
  | cons c0 t =>
    rw [List.cons_append]
    unfold afterSub
    rw [← List.cons_append, if_pos (isPrefixOf_append_self _ _), List.drop_left]

theorem afterSub_https (X : List Char) :
    afterSub ("://".toList) ("https://".toList ++ X) = some X := by
  have h0 : "https://".toList ++ X =
      'h' :: 't' :: 't' :: 'p' :: 's' :: ("://".toList ++ X) := by
    rw [show "https://".toList = 'h' :: 't' :: 't' :: 'p' :: 's' :: "://".toList from by decide,
      List.cons_append, List.cons_append, List.cons_append, List.cons_append,
      List.cons_append]
  rw [h0,
    afterSub_cons_of_ne _ ':' ("//".toList) 'h' _ (by decide) (by decide),
    afterSub_cons_of_ne _ ':' ("//".toList) 't' _ (by decide) (by decide),
    afterSub_cons_of_ne _ ':' ("//".toList) 't' _ (by decide) (by decide),
    afterSub_cons_of_ne _ ':' ("//".toList) 'p' _ (by decide) (by decide),
    afterSub_cons_of_ne _ ':' ("//".toList) 's' _ (by decide) (by decide),
    afterSub_self_append _ _ (by decide)]

theorem splitOnChar_append_sep_last (c : Char) (seg : List Char) (hc : c ∉ seg) :
    splitOnChar c (seg ++ [c]) = [seg, []] := by
  induction seg with
  | nil => simp [splitOnChar]
  | cons s0 seg ih =>
    have hs0 : ¬s0 = c := fun he => hc (he ▸ List.mem_cons_self s0 seg)
    rw [List.cons_append]
    simp only [splitOnChar, if_neg hs0,
      ih fun hm => hc (List.mem_cons_of_mem s0 hm)]

theorem splitOnChar_append_exists (c : Char) (m0 tail : List Char) :
    ∃ z zs, splitOnChar c (m0 ++ c :: tail) = z :: (zs ++ splitOnChar c tail) := by
  induction m0 with
  | nil => exact ⟨[], [], by simp [splitOnChar]⟩
  | cons x m0 ih =>
    obtain ⟨z, zs, hzs⟩ := ih
    by_cases hx : x = c
    · refine ⟨[], z :: zs, ?_⟩
      rw [List.cons_append]
      simp only [splitOnChar, if_pos hx, hzs, List.cons_append]
    · refine ⟨x :: z, zs, ?_⟩
      rw [List.cons_append]
      simp only [splitOnChar, if_neg hx, hzs]

theorem reverse_getElem_one (z seg : List Char) (zs : List (List Char)) :
    (z :: (zs ++ [seg, []])).reverse[1]? = some seg := by
  rw [List.reverse_cons, List.reverse_append]
  simp

theorem lentaIdFromPath_trailing (url m0 seg : List Char) (hc : '/' ∉ seg) :
    lentaIdFromPath url (m0 ++ '/' :: (seg ++ ['/'])) = seg := by
  obtain ⟨z, zs, hsplit⟩ := by
    have h := splitOnChar_append_exists '/' m0 (seg ++ ['/'])
    rw [splitOnChar_append_sep_last '/' seg hc] at h
    exact h
  have hlast : (m0 ++ '/' :: (seg ++ ['/'])).getLast? = some '/' := by
    rw [getLast_append_right m0 _ (by simp),
      show ('/' :: (seg ++ ['/'])) = ('/' :: seg) ++ ['/'] from by
        rw [List.cons_append],
      getLast_append_right _ _ (by simp)]
    rfl
  unfold lentaIdFromPath
  rw [if_pos hlast, hsplit, reverse_getElem_one]

theorem lenta_urlparse_https (host rest0 : List Char)
    (h1 : '/' ∉ host) (h2 : '?' ∉ host) (h3 : '#' ∉ host)
    (hr1 : '?' ∉ rest0) (hr2 : '#' ∉ rest0) :
    urlparsePath ("https://".toList ++ (host ++ '/' :: rest0)) = '/' :: rest0 := by
  have hnohash : '#' ∉ "https://".toList ++ (host ++ '/' :: rest0) := by
    intro hmem
    rcases List.mem_append.1 hmem with ha | hb
    · revert ha; decide
    · rcases List.mem_append.1 hb with hcm | hd
      · exact h3 hcm
      · rcases List.mem_cons.1 hd with he | hf
        · cases he
        · exact hr2 hf
  have hnoq : '?' ∉ host ++ '/' :: rest0 := by
    intro hmem
    rcases List.mem_append.1 hmem with ha | hb
    · exact h2 ha
    · rcases List.mem_cons.1 hb with he | hf
      · cases he
      · exact hr1 hf
  have hallhost : ∀ x ∈ host, (fun y => decide ¬y = '/') x = true := by
    intro x hx
    simp only [decide_eq_true_eq]
    exact fun he => h1 (he ▸ hx)
  simp only [urlparsePath]
  rw [takeUntilChar_eq_self _ _ hnohash, afterSub_https]
  simp only [takeUntilChar]
  rw [takeWhile_eq_self_of_all _ _ (by
    intro x hx
    simp only [decide_eq_true_eq]
    exact fun he => hnoq (he ▸ hx))]
  rw [dropWhile_append_all _ host _ hallhost,
    List.dropWhile_cons_of_neg (by simp)]

/-- C8: RiaParser._extract_news_id strips the query and the fragment (and
trailing slashes) and then applies the pattern rules in the fixed source
order — trailing -digits.html, trailing -digits/, /digits.html, /digits/,
trailing /digits, _digits.html, then any run of at least 8 digits — with
the first matching rule winning; consequently every URL of the form
prefix-123456.html yields "123456", and prefix-123456/ also yields
"123456" (for prefixes whose characters are not cut by the query/fragment
stripping). -/
theorem ria_pattern_order (p : List Char) (h1 : '?' ∉ p) (h2 : '#' ∉ p) :
    riaExtractNewsId (p ++ "-123456.html".toList) = some ("123456".toList)
    ∧ riaExtractNewsId (p ++ "-123456/".toList) = some ("123456".toList) := by
  constructor
  · have hnoq : '?' ∉ p ++ "-123456.html".toList := by
      intro hm
      rcases List.mem_append.1 hm with ha | hb
      · exact h1 ha
      · revert hb; decide
    have hnoh : '#' ∉ p ++ "-123456.html".toList := by
      intro hm
      rcases List.mem_append.1 hm with ha | hb
      · exact h2 ha
      · revert hb; decide
    have hclean : riaCleanUrl (p ++ "-123456.html".toList) =
        p ++ "-123456.html".toList := by
      unfold riaCleanUrl
      rw [takeUntilChar_eq_self _ _ hnoq, takeUntilChar_eq_self _ _ hnoh,
        rstripChar_eq_self]
      intro x hx
      rw [getLast_append_right _ _ (by decide),
        show ("-123456.html".toList.getLast?) = some 'l' from by decide] at hx
      cases hx
      decide
    have hshape : p ++ "-123456.html".toList =
        (p ++ '-' :: "123456".toList) ++ ".html".toList := by
      rw [show "-123456.html".toList =
        '-' :: ("123456".toList ++ ".html".toList) from by decide,
        List.append_assoc, List.cons_append]
    have hm1 : matchSepDigitsHtml '-' (p ++ "-123456.html".toList) =
        some ("123456".toList) := by
      rw [hshape]
      exact matchSepDigitsHtml_append '-' p _ (by decide) (by decide) (by decide)
    rw [riaExtractNewsId, hclean]
    simp only [riaPatterns, firstMatch, hm1]
  · have hnoq : '?' ∉ p ++ "-123456/".toList := by
      intro hm
      rcases List.mem_append.1 hm with ha | hb
      · exact h1 ha
      · revert hb; decide
    have hnoh : '#' ∉ p ++ "-123456/".toList := by
      intro hm
      rcases List.mem_append.1 hm with ha | hb
      · exact h2 ha
      · revert hb; decide
    have hstrip : rstripChar '/' (p ++ "-123456/".toList) =
        p ++ "-123456".toList := by
      unfold rstripChar
      rw [List.reverse_append,
        show "-123456/".toList.reverse = '/' :: '6' :: "54321-".toList from by decide,
        List.cons_append, List.cons_append,
        List.dropWhile_cons_of_pos (by decide),
        List.dropWhile_cons_of_neg (by decide),
        ← List.cons_append, List.reverse_append, List.reverse_reverse,
        show ('6' :: "54321-".toList).reverse = "-123456".toList from by decide]
    have hclean : riaCleanUrl (p ++ "-123456/".toList) = p ++ "-123456".toList := by
      unfold riaCleanUrl
      rw [takeUntilChar_eq_self _ _ hnoq, takeUntilChar_eq_self _ _ hnoh, hstrip]
    have hrev : (p ++ "-123456".toList).reverse =
        '6' :: ("54321-".toList ++ p.reverse) := by
      rw [List.reverse_append,
        show "-123456".toList.reverse = '6' :: "54321-".toList from by decide,
        List.cons_append]
    have hn1 : matchSepDigitsHtml '-' (p ++ "-123456".toList) = none := by
      unfold matchSepDigitsHtml
      rw [stripSuffixLit_none_of_head_ne (".html".toList) _ 'l' '6'
        ("mth.".toList) ("54321-".toList ++ p.reverse) (by decide) hrev (by decide)]
    have hm2 : matchSepDigitsEnd '-' (p ++ "-123456".toList) =
        some ("123456".toList) := by
      rw [show "-123456".toList = '-' :: "123456".toList from by decide]
      exact matchSepDigitsEnd_append '-' p _ (by decide) (by decide) (by decide)
    rw [riaExtractNewsId, hclean]
    simp only [riaPatterns, firstMatch, hn1, hm2]

/-- C8 witness. -/
theorem ria_pattern_order_witness :
    riaExtractNewsId
      ("https://ria.ru/20240515/title".toList ++ "-123456.html".toList) =
      some ("123456".toList)
    ∧ riaExtractNewsId
      ("https://ria.ru/20240515/title".toList ++ "-123456/".toList) =
      some ("123456".toList) :=
  ria_pattern_order ("https://ria.ru/20240515/title".toList) (by decide) (by decide)

/-- C9: LentaParser._extract_news_id takes the trailing path segment —
for a trailing-slash URL, the segment before the final slash, i.e. the
last non-empty segment of a well-formed trailing-slash path — so every
https URL whose path is /news/2024/05/15/coffee/ yields "coffee";
in general any URL whose path ends with /seg/ for a slash-free seg
yields seg. -/
theorem lenta_extract_id_path (host : List Char)
    (h1 : '/' ∉ host) (h2 : '?' ∉ host) (h3 : '#' ∉ host) :
    lentaExtractNewsId
      ("https://".toList ++ (host ++ "/news/2024/05/15/coffee/".toList)) =
      "coffee".toList
    ∧ (∀ url m0 seg : List Char, '/' ∉ seg →
        urlparsePath url = m0 ++ '/' :: (seg ++ ['/']) →
        lentaExtractNewsId url = seg) := by
  have hgen : ∀ url m0 seg : List Char, '/' ∉ seg →
      urlparsePath url = m0 ++ '/' :: (seg ++ ['/']) →
      lentaExtractNewsId url = seg := by
    intro url m0 seg hc hpath
    rw [lentaExtractNewsId, hpath, lentaIdFromPath_trailing url m0 seg hc]
  refine ⟨?_, hgen⟩
  have hpath : urlparsePath
      ("https://".toList ++ (host ++ "/news/2024/05/15/coffee/".toList)) =
      "/news/2024/05/15/coffee/".toList := by
    rw [show "/news/2024/05/15/coffee/".toList =
      '/' :: "news/2024/05/15/coffee/".toList from by decide]
    exact lenta_urlparse_https host _ h1 h2 h3 (by decide) (by decide)
  exact hgen _ ("/news/2024/05/15".toList) ("coffee".toList) (by decide)
    (hpath.trans (by decide))

/-- C9 witness. -/
theorem lenta_extract_id_path_witness :
    lentaExtractNewsId
      ("https://".toList ++ ("lenta.ru".toList ++ "/news/2024/05/15/coffee/".toList)) =
      "coffee".toList :=
  (lenta_extract_id_path ("lenta.ru".toList) (by decide) (by decide) (by decide)).1

end NewsParser
